import Mathlib

/-!
# Clementine `SongInfoView`: ordering and enabling of lyric providers

A shallow embedding of `src/songinfo/songinfoview.cpp`:
`ReloadSettings`, `ProviderByName`, `CompareLyricProviders` and
`lyric_providers`.

Modelling decisions.

* `fetcher_->providers()` is a `QList<SongInfoProvider*>` of distinct objects.
  It is embedded as the list of the objects themselves; a `SongInfoProvider*`
  is the position of its object in that list and `NULL` is `none`.
  Pointer equality (`QList::contains`) is therefore equality of positions.
* Dereferencing `NULL`, or calling through the `NULL` that `qobject_cast`
  returns for an object of another class, has no defined result: the
  functions that can do so return `Option`, and `none` stands for that fault.
* `int` values never leave the range of `int` here (the relevance counter
  starts at a list length and only counts down to 1), so they are `Int`.
* The settings store is read once, for the key `search_order`; the `QVariant`
  it returns is an input of `ReloadSettings`.
* Qt's `qSort` is an input of `lyric_providers`, specified by its documented
  contract (`SortsAscending`).
-/

namespace SongInfoView

/-! ## Data model -/

/-- A provider object registered with the fetcher. `ultimateLyrics` records
whether `qobject_cast<UltimateLyricsProvider*>` succeeds on it; `name` and
`relevance` are the fields behind `UltimateLyricsProvider::name()` and
`relevance()`, `enabled` the one behind `SongInfoProvider::is_enabled()`. -/
structure SongInfoProvider where
  ultimateLyrics : Bool
  name : String
  enabled : Bool
  relevance : Int
  deriving DecidableEq, Repr

/-- The setter `SongInfoProvider::set_enabled`. -/
def set_enabled (p : SongInfoProvider) (enabled : Bool) : SongInfoProvider :=
  ⟨p.ultimateLyrics, p.name, enabled, p.relevance⟩

/-- The setter `UltimateLyricsProvider::set_relevance`. -/
def set_relevance (p : SongInfoProvider) (relevance : Int) : SongInfoProvider :=
  ⟨p.ultimateLyrics, p.name, p.enabled, relevance⟩

/-- The call `provider->is_enabled()` through a pointer into `providers`. -/
def is_enabled (providers : List SongInfoProvider) (provider : Nat) : Option Bool :=
  (providers[provider]?).map SongInfoProvider.enabled

/-- The call `provider->relevance()` through a pointer into `providers`. -/
def relevance (providers : List SongInfoProvider) (provider : Nat) : Option Int :=
  (providers[provider]?).map SongInfoProvider.relevance

/-- The part of Qt's `QVariant` that `ReloadSettings` observes.
`invalid` is the null variant `QSettings::value` returns for a missing key,
`string` a non-null scalar (a value that is not a list), `list` a
`QVariantList` or `QStringList`. `ReloadSettings` only ever reads an item of
the list through `toString()`, so an item is represented by that string. -/
inductive QVariant where
  | invalid : QVariant
  | string (s : String) : QVariant
  | list (names : List String) : QVariant

/-- Qt's `QVariant::isNull`. -/
def QVariant.isNull : QVariant → Bool
  | QVariant.invalid => true
  | _ => false

/-- Qt's `QVariant::toList`, each item already passed through `toString()`:
the items of a list, and an empty list for a variant of any other type. -/
def QVariant.toList : QVariant → List String
  | QVariant.list names => names
  | _ => []

/-! ## `ProviderByName` -/

/-- `SongInfoView::ProviderByName`: a pointer to the first registered provider
that is an `UltimateLyricsProvider` with the given name, `NULL` when there is
none. -/
def ProviderByName : List SongInfoProvider → String → Option Nat
  | [], _ => none
  | provider :: rest, name =>
    if provider.ultimateLyrics && provider.name == name then some 0
    else (ProviderByName rest name).map (· + 1)

/-! ## `ReloadSettings` -/

/-- The hardcoded default order of `ReloadSettings`. -/
def defaultOrder : List String :=
  [ "lyrics.wikia.com",
    "lyricstime.com",
    "lyricsreg.com",
    "lyricsmania.com",
    "metrolyrics.com",
    "seeklyrics.com",
    "azlyrics.com",
    "mp3lyrics.org",
    "songlyrics.com",
    "lyricsmode.com",
    "elyrics.net",
    "lyricsdownload.com",
    "lyrics.com",
    "lyricsbay.com",
    "directlyrics.com",
    "loudson.gs",
    "teksty.org",
    "tekstowo.pl (Polish translations)",
    "vagalume.uol.com.br",
    "vagalume.uol.com.br (Portuguese translations)" ]

/-- The `else` branch that fills `ordered_providers`: each saved name is
looked up, and the pointer is appended only when it is not `NULL`. -/
def savedProviders (providers : List SongInfoProvider) : List String → List (Option Nat)
  | [] => []
  | name :: rest =>
    match ProviderByName providers name with
    | some provider => some provider :: savedProviders providers rest
    | none => savedProviders providers rest

/-- The list `ordered_providers` as `ReloadSettings` builds it. In the
default branch the result of every `ProviderByName` call is appended as it
is, `NULL` included. -/
def orderedProviders (providers : List SongInfoProvider) (saved_order : QVariant) :
    List (Option Nat) :=
  if saved_order.isNull then defaultOrder.map (ProviderByName providers)
  else savedProviders providers saved_order.toList

/-- The loop "enable all the providers in the list and rank them". The
counter `relevance` is used and then decremented. A `NULL` entry, or one
that is not an `UltimateLyricsProvider`, is dereferenced: the fault `none`. -/
def enableAndRank :
    List (Option Nat) → Int → List SongInfoProvider → Option (List SongInfoProvider)
  | [], _, providers => some providers
  | none :: _, _, _ => none
  | some provider :: rest, relevance, providers =>
    match providers[provider]? with
    | none => none
    | some p =>
      if p.ultimateLyrics then
        enableAndRank rest (relevance - 1)
          (providers.set provider (set_relevance (set_enabled p true) relevance))
      else none

/-- The loop "any lyric providers we don't have in ordered_providers are
considered disabled". -/
def disableUnordered (ordered_providers : List (Option Nat))
    (providers : List SongInfoProvider) : List SongInfoProvider :=
  providers.mapIdx fun provider p =>
    if p.ultimateLyrics && !ordered_providers.contains (some provider) then
      set_enabled p false
    else p

/-- `SongInfoView::ReloadSettings`, with the registered providers and the
value of the settings key `search_order` as explicit inputs. The result is
the registered providers after the call, or `none` for a fault. -/
def ReloadSettings (providers : List SongInfoProvider) (saved_order : QVariant) :
    Option (List SongInfoProvider) :=
  let ordered_providers := orderedProviders providers saved_order
  match enableAndRank ordered_providers ordered_providers.length providers with
  | none => none
  | some ranked => some (disableUnordered ordered_providers ranked)

/-! ## `CompareLyricProviders` and `lyric_providers` -/

/-- The comparator `CompareLyricProviders`. -/
def CompareLyricProviders (a b : SongInfoProvider) : Bool :=
  if a.enabled && !b.enabled then true
  else if !a.enabled && b.enabled then false
  else decide (a.relevance > b.relevance)

/-- `SongInfoView::lyric_providers`. The returned pointers are represented
by the objects they point to. Qt's `qSort` is not part of this repository
and is a parameter. -/
def lyric_providers (qSort : (SongInfoProvider → SongInfoProvider → Bool) →
    List SongInfoProvider → List SongInfoProvider)
    (providers : List SongInfoProvider) : List SongInfoProvider :=
  qSort CompareLyricProviders (providers.filter fun provider => provider.ultimateLyrics)

/-! ## The contract of `qSort` -/

/-- A strict weak ordering, which `qSort` requires its `lessThan` to be:
irreflexive, asymmetric, transitive, with transitive incomparability. -/
def StrictWeakOrdering {α : Type} (lessThan : α → α → Bool) : Prop :=
  (∀ a, lessThan a a = false) ∧
  (∀ a b, lessThan a b = true → lessThan b a = false) ∧
  (∀ a b c, lessThan a b = true → lessThan b c = true → lessThan a c = true) ∧
  (∀ a b c, lessThan a b = false → lessThan b a = false →
    lessThan b c = false → lessThan c b = false →
    lessThan a c = false ∧ lessThan c a = false)

/-- The documented contract of Qt's `qSort(begin, end, lessThan)`: for a
strict weak ordering the result is a rearrangement of the input in ascending
order, so that no item is less than an item before it. -/
def SortsAscending (qSort : (SongInfoProvider → SongInfoProvider → Bool) →
    List SongInfoProvider → List SongInfoProvider) : Prop :=
  ∀ lessThan items, StrictWeakOrdering lessThan →
    (qSort lessThan items).Perm items ∧
    (qSort lessThan items).Pairwise fun a b => lessThan b a = false

/-- Insertion of one item into an ascending list. -/
def orderedInsert (lessThan : SongInfoProvider → SongInfoProvider → Bool)
    (x : SongInfoProvider) : List SongInfoProvider → List SongInfoProvider
  | [] => [x]
  | y :: rest => if lessThan x y then x :: y :: rest else y :: orderedInsert lessThan x rest

/-- An insertion sort: one sorting function that meets `SortsAscending`. -/
def insertionSort (lessThan : SongInfoProvider → SongInfoProvider → Bool) :
    List SongInfoProvider → List SongInfoProvider
  | [] => []
  | x :: rest => orderedInsert lessThan x (insertionSort lessThan rest)

/-- A registration with one disabled lyric provider for each default name. -/
def defaultProviders : List SongInfoProvider :=
  defaultOrder.map fun name => ⟨true, name, false, 0⟩

/-! ## Lemmas on `ProviderByName` -/

theorem ProviderByName_some {ps : List SongInfoProvider} {name : String} {i : Nat}
    (h : ProviderByName ps name = some i) :
    ∃ p, ps[i]? = some p ∧ p.ultimateLyrics = true ∧ p.name = name := by
  induction ps generalizing i with
  | nil => simp [ProviderByName] at h
  | cons q rest ih =>
    unfold ProviderByName at h
    split at h
    · rename_i hq
      simp only [Bool.and_eq_true, beq_iff_eq] at hq
      cases h
      exact ⟨q, by simp, hq.1, hq.2⟩
    · cases hr : ProviderByName rest name with
      | none => simp [hr] at h
      | some j =>
        simp [hr] at h
        subst h
        obtain ⟨p, hp, hl, hn⟩ := ih hr
        exact ⟨p, by simpa using hp, hl, hn⟩

theorem ProviderByName_isSome {ps : List SongInfoProvider} {name : String} :
    (ProviderByName ps name).isSome = true ↔
      ∃ p ∈ ps, p.ultimateLyrics = true ∧ p.name = name := by
  induction ps with
  | nil => simp [ProviderByName]
  | cons q rest ih =>
    unfold ProviderByName
    split
    · rename_i hq
      simp only [Bool.and_eq_true, beq_iff_eq] at hq
      simp only [Option.isSome_some, List.mem_cons, true_iff]
      exact ⟨q, Or.inl rfl, hq.1, hq.2⟩
    · rename_i hq
      simp only [Bool.and_eq_true, beq_iff_eq] at hq
      have hm : (Option.map (fun x => x + 1) (ProviderByName rest name)).isSome =
          (ProviderByName rest name).isSome := by
        cases ProviderByName rest name <;> rfl
      rw [hm, ih]
      constructor
      · rintro ⟨p, hp, h1, h2⟩
        exact ⟨p, List.mem_cons_of_mem _ hp, h1, h2⟩
      · rintro ⟨p, hp, h1, h2⟩
        rcases List.mem_cons.1 hp with rfl | hp
        · exact absurd ⟨h1, h2⟩ hq
        · exact ⟨p, hp, h1, h2⟩

theorem savedProviders_eq (ps : List SongInfoProvider) (names : List String) :
    savedProviders ps names = (names.filterMap (ProviderByName ps)).map some := by
  induction names with
  | nil => rfl
  | cons v rest ih =>
    unfold savedProviders
    cases hv : ProviderByName ps v with
    | none => simp [List.filterMap_cons, hv, ih]
    | some i => simp [List.filterMap_cons, hv, ih]


/-! ## The two loops of `ReloadSettings` -/

/-- What the enable-and-rank loop does on a list of valid pointers to lyric
providers: it completes, keeps the list of objects in place, leaves objects
outside the list untouched, enables those in it, and the relevance of an
object is the counter value at its last position in the list. -/
theorem enableAndRank_spec (l : List Nat) :
    ∀ (r : Int) (ps : List SongInfoProvider),
      (∀ i ∈ l, ∃ p, ps[i]? = some p ∧ p.ultimateLyrics = true) →
      ∃ ps', enableAndRank (l.map some) r ps = some ps' ∧ ps'.length = ps.length ∧
        ∀ i p, ps[i]? = some p → ∃ p', ps'[i]? = some p' ∧
          p'.ultimateLyrics = p.ultimateLyrics ∧ p'.name = p.name ∧
          (i ∉ l → p' = p) ∧ (i ∈ l → p'.enabled = true) ∧
          (∀ k : Nat, l[k]? = some i → (∀ j : Nat, k < j → l[j]? ≠ some i) →
            p'.relevance = r - (k : Int)) := by
  induction l with
  | nil =>
    intro r ps _
    refine ⟨ps, rfl, rfl, ?_⟩
    intro i p hp
    exact ⟨p, hp, rfl, rfl, fun _ => rfl, by simp, by simp⟩
  | cons x xs ih =>
    intro r ps h
    obtain ⟨px, hpx, hlx⟩ := h x (List.mem_cons_self _ _)
    have hxlt : x < ps.length := (List.getElem?_eq_some.1 hpx).1
    have h1 : ∀ i ∈ xs, ∃ p,
        (ps.set x (set_relevance (set_enabled px true) r))[i]? = some p ∧
          p.ultimateLyrics = true := by
      intro i hi
      by_cases hxi : x = i
      · subst hxi
        exact ⟨set_relevance (set_enabled px true) r,
          by simp [List.getElem?_set, hxlt], hlx⟩
      · obtain ⟨p, hp, hl⟩ := h i (List.mem_cons_of_mem _ hi)
        exact ⟨p, by simpa [List.getElem?_set, hxi] using hp, hl⟩
    obtain ⟨ps', hrun, hlen, hall⟩ := ih (r - 1) _ h1
    refine ⟨ps', ?_, ?_, ?_⟩
    · simp only [List.map_cons, enableAndRank, hpx, hlx, if_true]
      exact hrun
    · simpa using hlen
    · intro i p hp
      by_cases hxi : x = i
      · subst hxi
        have hpeq : px = p := Option.some.inj (hpx.symm.trans hp)
        subst hpeq
        obtain ⟨p', hp', hul, hnm, hout, hin, hrel⟩ :=
          hall x (set_relevance (set_enabled px true) r) (by simp [List.getElem?_set, hxlt])
        refine ⟨p', hp', hul, hnm, ?_, ?_, ?_⟩
        · intro hni
          exact absurd (List.mem_cons_self _ _) hni
        · intro _
          by_cases hmem : x ∈ xs
          · exact hin hmem
          · rw [hout hmem]; rfl
        · intro k hk hlast
          cases k with
          | zero =>
            have hmem : x ∉ xs := by
              intro hmem
              obtain ⟨n, hn⟩ := List.mem_iff_getElem?.1 hmem
              exact hlast (n + 1) (Nat.succ_pos _) (by simpa using hn)
            rw [hout hmem]
            simp [set_relevance]
          | succ k =>
            have := hrel k (by simpa using hk)
              (fun j hj => by simpa using hlast (j + 1) (Nat.succ_lt_succ hj))
            rw [this]
            push_cast
            ring
      · obtain ⟨p', hp', hul, hnm, hout, hin, hrel⟩ :=
          hall i p (by simpa [List.getElem?_set, hxi] using hp)
        refine ⟨p', hp', hul, hnm, ?_, ?_, ?_⟩
        · intro hni
          exact hout (fun hmem => hni (List.mem_cons_of_mem _ hmem))
        · intro hmem
          rcases List.mem_cons.1 hmem with heq | hmem
          · exact absurd heq.symm hxi
          · exact hin hmem
        · intro k hk hlast
          cases k with
          | zero =>
            simp at hk
            exact absurd hk hxi
          | succ k =>
            have := hrel k (by simpa using hk)
              (fun j hj => by simpa using hlast (j + 1) (Nat.succ_lt_succ hj))
            rw [this]
            push_cast
            ring

theorem getElem?_disableUnordered (ord : List (Option Nat)) (ps : List SongInfoProvider)
    (i : Nat) :
    (disableUnordered ord ps)[i]? = (ps[i]?).map fun p =>
      if p.ultimateLyrics && !ord.contains (some i) then set_enabled p false else p := by
  simp [disableUnordered, List.getElem?_mapIdx]


theorem map_eq_filterMap_map_some {α β : Type} (f : α → Option β) (xs : List α)
    (h : ∀ x ∈ xs, (f x).isSome = true) : xs.map f = (xs.filterMap f).map some := by
  induction xs with
  | nil => rfl
  | cons x rest ih =>
    have hx := h x (List.mem_cons_self _ _)
    cases hfx : f x with
    | none => simp [hfx] at hx
    | some y =>
      simp [List.filterMap_cons, hfx, ih (fun z hz => h z (List.mem_cons_of_mem _ hz))]

/-- The effect of `ReloadSettings` whenever `ordered_providers` holds only
valid pointers to lyric providers. -/
theorem ReloadSettings_spec (ps : List SongInfoProvider) (v : QVariant) (l : List Nat)
    (hord : orderedProviders ps v = l.map some)
    (hl : ∀ i ∈ l, ∃ p, ps[i]? = some p ∧ p.ultimateLyrics = true) :
    ∃ ps', ReloadSettings ps v = some ps' ∧ ps'.length = ps.length ∧
      ∀ i p, ps[i]? = some p → ∃ p', ps'[i]? = some p' ∧
        p'.ultimateLyrics = p.ultimateLyrics ∧ p'.name = p.name ∧
        (i ∈ l → p'.enabled = true) ∧
        (i ∉ l → p' = if p.ultimateLyrics then set_enabled p false else p) ∧
        (∀ k : Nat, l[k]? = some i → (∀ j : Nat, k < j → l[j]? ≠ some i) →
          p'.relevance = (l.length : Int) - (k : Int)) := by
  obtain ⟨ps1, hrun, hlen, hall⟩ := enableAndRank_spec l (l.length : Int) ps hl
  refine ⟨disableUnordered (l.map some) ps1, ?_, ?_, ?_⟩
  · simp only [ReloadSettings, hord, List.length_map, hrun]
  · simp [disableUnordered, hlen]
  · intro i p hp
    obtain ⟨p1, hp1, hul, hnm, hout, hin, hrel⟩ := hall i p hp
    by_cases hmem : i ∈ l
    · refine ⟨p1, ?_, hul, hnm, fun _ => hin hmem, fun h => absurd hmem h, hrel⟩
      rw [getElem?_disableUnordered, hp1]
      simp [hmem]
    · have hp1p : p1 = p := hout hmem
      subst hp1p
      refine ⟨if p1.ultimateLyrics then set_enabled p1 false else p1, ?_, ?_, ?_,
        fun h => absurd h hmem, fun _ => rfl, ?_⟩
      · rw [getElem?_disableUnordered, hp1]
        simp [hmem]
      · split <;> rfl
      · split <;> rfl
      · intro k hk _
        exact absurd (List.mem_iff_getElem?.2 ⟨k, hk⟩) hmem

/-- The pointers the `else` branch collects, without the `Option` wrapper. -/
theorem orderedProviders_list (ps : List SongInfoProvider) (names : List String) :
    orderedProviders ps (QVariant.list names) =
      (names.filterMap (ProviderByName ps)).map some := by
  simp [orderedProviders, QVariant.isNull, QVariant.toList, savedProviders_eq]

theorem orderedProviders_string (ps : List SongInfoProvider) (s : String) :
    orderedProviders ps (QVariant.string s) = [] := by
  simp [orderedProviders, QVariant.isNull, QVariant.toList, savedProviders]

theorem orderedProviders_invalid (ps : List SongInfoProvider) :
    orderedProviders ps QVariant.invalid = defaultOrder.map (ProviderByName ps) := by
  simp [orderedProviders, QVariant.isNull]

theorem mem_filterMap_ProviderByName {ps : List SongInfoProvider} {names : List String}
    {i : Nat} (h : i ∈ names.filterMap (ProviderByName ps)) :
    ∃ p, ps[i]? = some p ∧ p.ultimateLyrics = true := by
  obtain ⟨x, _, hx⟩ := List.mem_filterMap.1 h
  obtain ⟨p, hp, hlyr, _⟩ := ProviderByName_some hx
  exact ⟨p, hp, hlyr⟩

/-- Whenever the default branch finds every name, `ordered_providers` is a
list of valid pointers to lyric providers; the `else` branch always builds
such a list. -/
theorem orderedProviders_valid (ps : List SongInfoProvider) (v : QVariant)
    (h : v.isNull = true → ∀ name ∈ defaultOrder,
      ∃ p ∈ ps, p.ultimateLyrics = true ∧ p.name = name) :
    ∃ l : List Nat, orderedProviders ps v = l.map some ∧
      ∀ i ∈ l, ∃ p, ps[i]? = some p ∧ p.ultimateLyrics = true := by
  cases v with
  | invalid =>
    refine ⟨defaultOrder.filterMap (ProviderByName ps), ?_, ?_⟩
    · rw [orderedProviders_invalid]
      exact map_eq_filterMap_map_some _ _
        (fun name hname => ProviderByName_isSome.2 (h rfl name hname))
    · intro i hi
      exact mem_filterMap_ProviderByName hi
  | string s => exact ⟨[], orderedProviders_string ps s, by simp⟩
  | list names =>
    refine ⟨names.filterMap (ProviderByName ps), orderedProviders_list ps names, ?_⟩
    intro i hi
    exact mem_filterMap_ProviderByName hi

theorem defaultProviders_registered :
    ∀ name ∈ defaultOrder, ∃ p ∈ defaultProviders, p.ultimateLyrics = true ∧ p.name = name := by
  intro name hname
  exact ⟨⟨true, name, false, 0⟩, List.mem_map.2 ⟨name, hname, rfl⟩, rfl, rfl⟩

theorem some_mem_map_some (l : List Nat) (i : Nat) : some i ∈ l.map some ↔ i ∈ l := by
  simp

/-! ## The claims -/

/-- C2. Names of the persisted list that no registered lyric provider has are
ignored: `ReloadSettings` gives the same result for the list with those names
removed, it completes, and `ordered_providers` holds exactly the providers
found for the known names, in the order given. -/
theorem ReloadSettings_ignores_unknown_names (providers : List SongInfoProvider)
    (names : List String) :
    ReloadSettings providers (QVariant.list names) =
        ReloadSettings providers (QVariant.list
          (names.filter fun name => (ProviderByName providers name).isSome)) ∧
      (ReloadSettings providers (QVariant.list names)).isSome = true ∧
      orderedProviders providers (QVariant.list names) =
        (names.filter fun name => (ProviderByName providers name).isSome).map
          (ProviderByName providers) := by
  have hfm : (names.filter fun name => (ProviderByName providers name).isSome).filterMap
      (ProviderByName providers) = names.filterMap (ProviderByName providers) := by
    induction names with
    | nil => rfl
    | cons v rest ih =>
      cases hv : ProviderByName providers v with
      | none => simp [List.filter_cons, List.filterMap_cons, hv, ih]
      | some i => simp [List.filter_cons, List.filterMap_cons, hv, ih]
  have hord : orderedProviders providers (QVariant.list
      (names.filter fun name => (ProviderByName providers name).isSome)) =
      orderedProviders providers (QVariant.list names) := by
    rw [orderedProviders_list, orderedProviders_list, hfm]
  refine ⟨?_, ?_, ?_⟩
  · simp only [ReloadSettings, hord]
  · obtain ⟨l, hl, hv⟩ := orderedProviders_valid providers (QVariant.list names)
      (by simp [QVariant.isNull])
    obtain ⟨ps', hrun, _⟩ := ReloadSettings_spec providers _ l hl hv
    simp [hrun]
  · rw [← hord, orderedProviders_list]
    exact (map_eq_filterMap_map_some _ _ (fun v hv => (List.mem_filter.1 hv).2)).symm

/-- C3 does not hold as stated: a registered provider that is not a lyric
provider and is absent from `ordered_providers` stays enabled. -/
theorem ReloadSettings_keeps_other_provider_enabled :
    ∃ after,
      ReloadSettings [⟨false, "last.fm", true, 0⟩] (QVariant.list []) = some after ∧
      some 0 ∉ orderedProviders [⟨false, "last.fm", true, 0⟩] (QVariant.list []) ∧
      is_enabled [⟨false, "last.fm", true, 0⟩] 0 = some true ∧
      is_enabled after 0 = some true :=
  ⟨[⟨false, "last.fm", true, 0⟩], by decide, by decide, by decide, by decide⟩

/-- C3, amended. Whenever the saved value is present, or is missing while every
default name is registered, `ReloadSettings` completes and every registered
lyric provider that is not in `ordered_providers` is disabled afterwards,
whatever its enabled flag was before; every registered provider that is not a
lyric provider is left exactly as it was, enabled flag included. -/
theorem ReloadSettings_disables_unordered_lyrics (providers : List SongInfoProvider)
    (saved_order : QVariant)
    (h : saved_order.isNull = true → ∀ name ∈ defaultOrder,
      ∃ p ∈ providers, p.ultimateLyrics = true ∧ p.name = name) :
    ∃ after, ReloadSettings providers saved_order = some after ∧
      (∀ provider p, providers[provider]? = some p → p.ultimateLyrics = true →
        some provider ∉ orderedProviders providers saved_order →
        is_enabled after provider = some false) ∧
      (∀ provider p, providers[provider]? = some p → p.ultimateLyrics = false →
        some provider ∉ orderedProviders providers saved_order ∧
        after[provider]? = some p ∧
        is_enabled after provider = some p.enabled) := by
  obtain ⟨l, hl, hv⟩ := orderedProviders_valid providers saved_order h
  obtain ⟨after, hrun, _, hall⟩ := ReloadSettings_spec providers _ l hl hv
  refine ⟨after, hrun, ?_, ?_⟩
  · intro i p hp hlyr hni
    rw [hl, some_mem_map_some] at hni
    obtain ⟨p', hp', _, _, _, hout, _⟩ := hall i p hp
    have := hout hni
    rw [if_pos hlyr] at this
    simp [is_enabled, hp', this, set_enabled]
  · intro i p hp hnl
    have hni : i ∉ l := by
      intro hi
      obtain ⟨q, hq, hql⟩ := hv i hi
      have : q = p := Option.some.inj (hq.symm.trans hp)
      rw [this, hnl] at hql
      exact Bool.false_ne_true hql
    obtain ⟨p', hp', _, _, _, hout, _⟩ := hall i p hp
    have hpp : p' = p := by
      rw [hout hni]
      simp [hnl]
    rw [hpp] at hp'
    refine ⟨?_, hp', ?_⟩
    · rw [hl, some_mem_map_some]
      exact hni
    · simp [is_enabled, hp']

theorem ReloadSettings_disables_unordered_lyrics_witness :
    ∃ after,
      ReloadSettings
          (⟨false, "last.fm", true, 0⟩ :: ⟨true, "extra", true, 7⟩ :: defaultProviders)
          QVariant.invalid = some after ∧
      (∀ provider p,
        ((⟨false, "last.fm", true, 0⟩ : SongInfoProvider) :: ⟨true, "extra", true, 7⟩ ::
          defaultProviders)[provider]? = some p →
        p.ultimateLyrics = true →
        some provider ∉
          orderedProviders
            (⟨false, "last.fm", true, 0⟩ :: ⟨true, "extra", true, 7⟩ :: defaultProviders)
            QVariant.invalid →
        is_enabled after provider = some false) ∧
      (∀ provider p,
        ((⟨false, "last.fm", true, 0⟩ : SongInfoProvider) :: ⟨true, "extra", true, 7⟩ ::
          defaultProviders)[provider]? = some p →
        p.ultimateLyrics = false →
        some provider ∉
          orderedProviders
            (⟨false, "last.fm", true, 0⟩ :: ⟨true, "extra", true, 7⟩ :: defaultProviders)
            QVariant.invalid ∧
        after[provider]? = some p ∧
        is_enabled after provider = some p.enabled) :=
  ReloadSettings_disables_unordered_lyrics
    (⟨false, "last.fm", true, 0⟩ :: ⟨true, "extra", true, 7⟩ :: defaultProviders)
    QVariant.invalid
    (fun _ name hname =>
      match defaultProviders_registered name hname with
      | ⟨p, hp, hlyr⟩ => ⟨p, List.mem_cons_of_mem _ (List.mem_cons_of_mem _ hp), hlyr⟩)

/-- On the registration of the witness above, with no saved value: the
provider of another class at position 0 stays enabled, the lyric provider at
position 1, which no default name finds, is disabled, and the provider found
for the first default name, at position 2, is enabled. -/
theorem ReloadSettings_disables_unordered_lyrics_example :
    (ReloadSettings
        (⟨false, "last.fm", true, 0⟩ :: ⟨true, "extra", true, 7⟩ :: defaultProviders)
        QVariant.invalid).map (fun after =>
          (is_enabled after 0, is_enabled after 1, is_enabled after 2)) =
      some (some true, some false, some true) := by
  decide

/-- C10. `ReloadSettings` on a persisted list completes and changes only
enabled flags and relevances of lyric providers: the registered list keeps its
length, every object keeps its place, name and class, every provider that is
not a lyric provider keeps its enabled flag, and every provider that is not in
`ordered_providers` keeps its relevance. -/
theorem ReloadSettings_frame (providers : List SongInfoProvider) (names : List String) :
    ∃ after, ReloadSettings providers (QVariant.list names) = some after ∧
      after.length = providers.length ∧
      ∀ provider p, providers[provider]? = some p →
        ∃ p', after[provider]? = some p' ∧
          p'.name = p.name ∧ p'.ultimateLyrics = p.ultimateLyrics ∧
          (p.ultimateLyrics = false → p'.enabled = p.enabled) ∧
          (some provider ∉ orderedProviders providers (QVariant.list names) →
            p'.relevance = p.relevance) := by
  obtain ⟨l, hl, hv⟩ := orderedProviders_valid providers (QVariant.list names)
    (by simp [QVariant.isNull])
  obtain ⟨after, hrun, hlen, hall⟩ := ReloadSettings_spec providers _ l hl hv
  refine ⟨after, hrun, hlen, ?_⟩
  intro i p hp
  obtain ⟨p', hp', hul, hnm, _, hout, _⟩ := hall i p hp
  refine ⟨p', hp', hnm, hul, ?_, ?_⟩
  · intro hnl
    have hni : i ∉ l := by
      intro hi
      obtain ⟨q, hq, hql⟩ := hv i hi
      have : q = p := Option.some.inj (hq.symm.trans hp)
      rw [this, hnl] at hql
      exact Bool.false_ne_true hql
    rw [hout hni]
    simp [hnl]
  · intro hni
    rw [hl, some_mem_map_some] at hni
    rw [hout hni]
    split <;> rfl

/-- At every position of `ordered_providers` the provider is enabled after
`ReloadSettings`, and at the last position of a provider its relevance is the
length of the list minus that position. -/
theorem ReloadSettings_ranked (ps : List SongInfoProvider) (v : QVariant) (l : List Nat)
    (hord : orderedProviders ps v = l.map some)
    (hl : ∀ i ∈ l, ∃ p, ps[i]? = some p ∧ p.ultimateLyrics = true) :
    ∃ after, ReloadSettings ps v = some after ∧
      ∀ k i, l[k]? = some i → is_enabled after i = some true ∧
        ((∀ j : Nat, k < j → l[j]? ≠ some i) →
          relevance after i = some ((l.length : Int) - (k : Int))) := by
  obtain ⟨after, hrun, _, hall⟩ := ReloadSettings_spec ps v l hord hl
  refine ⟨after, hrun, ?_⟩
  intro k i hk
  have hmem : i ∈ l := List.mem_iff_getElem?.2 ⟨k, hk⟩
  obtain ⟨p, hp, _⟩ := hl i hmem
  obtain ⟨p', hp', _, _, hin, _, hrel⟩ := hall i p hp
  refine ⟨by simp [is_enabled, hp', hin hmem], ?_⟩
  intro hlast
  simp [relevance, hp', hrel k hk hlast]

theorem defaultOrder_nodup : defaultOrder.Nodup := by decide

theorem defaultOrder_length : defaultOrder.length = 20 := rfl

/-- C1. When `search_order` has no value and every name of the default
sequence has a registered lyric provider, `ReloadSettings` completes and the
provider found for the i-th default name is enabled with relevance `20 - i`;
so "lyrics.wikia.com" gets 20 and
"vagalume.uol.com.br (Portuguese translations)" gets 1. -/
theorem ReloadSettings_default_ranking (providers : List SongInfoProvider)
    (h : ∀ name ∈ defaultOrder, ∃ p ∈ providers, p.ultimateLyrics = true ∧ p.name = name) :
    ∃ after, ReloadSettings providers QVariant.invalid = some after ∧
      (∀ (i : Nat) (name : String), defaultOrder[i]? = some name →
        ∃ provider, ProviderByName providers name = some provider ∧
          is_enabled after provider = some true ∧
          relevance after provider = some (20 - (i : Int))) ∧
      (∃ provider, ProviderByName providers "lyrics.wikia.com" = some provider ∧
        relevance after provider = some 20) ∧
      (∃ provider,
        ProviderByName providers "vagalume.uol.com.br (Portuguese translations)" =
          some provider ∧
        relevance after provider = some 1) := by
  have hmap : defaultOrder.map (ProviderByName providers) =
      (defaultOrder.filterMap (ProviderByName providers)).map some :=
    map_eq_filterMap_map_some _ _ (fun name hname => ProviderByName_isSome.2 (h name hname))
  have hlen : (defaultOrder.filterMap (ProviderByName providers)).length = 20 := by
    have := congrArg List.length hmap
    simpa [defaultOrder_length] using this.symm
  have hget : ∀ (j : Nat) (q : Nat),
      (defaultOrder.filterMap (ProviderByName providers))[j]? = some q →
      ∃ name, defaultOrder[j]? = some name ∧ ProviderByName providers name = some q := by
    intro j q hj
    have := congrArg (fun xs => xs[j]?) hmap
    simp only [List.getElem?_map, hj, Option.map_some'] at this
    cases hd : defaultOrder[j]? with
    | none => simp [hd] at this
    | some name =>
      refine ⟨name, rfl, ?_⟩
      simpa [hd] using this
  obtain ⟨after, hrun, hall⟩ := ReloadSettings_ranked providers QVariant.invalid
    (defaultOrder.filterMap (ProviderByName providers))
    (by rw [orderedProviders_invalid, hmap])
    (fun i hi => mem_filterMap_ProviderByName hi)
  have main : ∀ (i : Nat) (name : String), defaultOrder[i]? = some name →
      ∃ provider, ProviderByName providers name = some provider ∧
        is_enabled after provider = some true ∧
        relevance after provider = some (20 - (i : Int)) := by
    intro i name hi
    have hname : name ∈ defaultOrder := List.mem_iff_getElem?.2 ⟨i, hi⟩
    obtain ⟨provider, hprov⟩ := Option.isSome_iff_exists.1
      (ProviderByName_isSome.2 (h name hname))
    have hli : (defaultOrder.filterMap (ProviderByName providers))[i]? = some provider := by
      have := congrArg (fun xs => xs[i]?) hmap
      simp only [List.getElem?_map, hi, Option.map_some', hprov] at this
      cases hd : (defaultOrder.filterMap (ProviderByName providers))[i]? with
      | none => simp [hd] at this
      | some q =>
        simp [hd] at this
        rw [this]
    obtain ⟨hen, hrel⟩ := hall i provider hli
    refine ⟨provider, hprov, hen, ?_⟩
    have hlast : ∀ j : Nat, i < j →
        (defaultOrder.filterMap (ProviderByName providers))[j]? ≠ some provider := by
      intro j hij hj
      obtain ⟨name', hj', hprov'⟩ := hget j provider hj
      obtain ⟨_, hp1, _, hn1⟩ := ProviderByName_some hprov
      obtain ⟨_, hp2, _, hn2⟩ := ProviderByName_some hprov'
      have hpp := Option.some.inj (hp1.symm.trans hp2)
      have hnn : name = name' := by rw [← hn1, ← hn2, hpp]
      have hilt : i < defaultOrder.length := (List.getElem?_eq_some.1 hi).1
      have heq : defaultOrder[i]? = defaultOrder[j]? := by rw [hi, hj', hnn]
      have := List.getElem?_inj hilt defaultOrder_nodup heq
      omega
    rw [hrel hlast, hlen]
    rfl
  refine ⟨after, hrun, main, ?_, ?_⟩
  · obtain ⟨provider, hp, _, hr⟩ := main 0 "lyrics.wikia.com" rfl
    exact ⟨provider, hp, by simpa using hr⟩
  · obtain ⟨provider, hp, _, hr⟩ :=
      main 19 "vagalume.uol.com.br (Portuguese translations)" rfl
    exact ⟨provider, hp, by simpa using hr⟩

theorem ReloadSettings_default_ranking_witness :
    ∃ after, ReloadSettings defaultProviders QVariant.invalid = some after ∧
      (∀ (i : Nat) (name : String), defaultOrder[i]? = some name →
        ∃ provider, ProviderByName defaultProviders name = some provider ∧
          is_enabled after provider = some true ∧
          relevance after provider = some (20 - (i : Int))) ∧
      (∃ provider, ProviderByName defaultProviders "lyrics.wikia.com" = some provider ∧
        relevance after provider = some 20) ∧
      (∃ provider,
        ProviderByName defaultProviders "vagalume.uol.com.br (Portuguese translations)" =
          some provider ∧
        relevance after provider = some 1) :=
  ReloadSettings_default_ranking defaultProviders defaultProviders_registered

/-- C4 does not hold as stated: when the persisted list names a provider more
than once, the provider is ranked by its last position. Here provider 0 is first in
`ordered_providers` and provider 1 second, yet provider 0 ends with the lower
relevance. -/
theorem ReloadSettings_repeated_name_ranking :
    ∃ after,
      ReloadSettings [⟨true, "a", false, 0⟩, ⟨true, "b", false, 0⟩]
        (QVariant.list ["a", "b", "a"]) =
          some after ∧
      orderedProviders [⟨true, "a", false, 0⟩, ⟨true, "b", false, 0⟩]
        (QVariant.list ["a", "b", "a"]) =
          [some 0, some 1, some 0] ∧
      relevance after 0 = some 1 ∧ relevance after 1 = some 2 :=
  ⟨[⟨true, "a", true, 1⟩, ⟨true, "b", true, 2⟩], by decide, by decide, by decide, by decide⟩

/-- C4, amended. For every persisted list, `ReloadSettings` completes, every
provider in `ordered_providers` is enabled, and the relevance of a provider is
the length of the list minus its last position in it. So of two providers the
one whose last position is earlier has the strictly higher relevance, and in a
list without repeats the earlier of two providers has the strictly higher
relevance, the first one the highest of all. -/
theorem ReloadSettings_ranks_by_last_position (providers : List SongInfoProvider)
    (names : List String) :
    ∃ after, ReloadSettings providers (QVariant.list names) = some after ∧
      (∀ (k provider : Nat),
        (orderedProviders providers (QVariant.list names))[k]? = some (some provider) →
        is_enabled after provider = some true ∧
        ((∀ j : Nat, k < j →
            (orderedProviders providers (QVariant.list names))[j]? ≠ some (some provider)) →
          relevance after provider =
            some (((orderedProviders providers (QVariant.list names)).length : Int) - (k : Int)))) ∧
      (∀ (k₁ k₂ a b : Nat),
        (orderedProviders providers (QVariant.list names))[k₁]? = some (some a) →
        (orderedProviders providers (QVariant.list names))[k₂]? = some (some b) →
        (∀ j : Nat, k₁ < j →
          (orderedProviders providers (QVariant.list names))[j]? ≠ some (some a)) →
        (∀ j : Nat, k₂ < j →
          (orderedProviders providers (QVariant.list names))[j]? ≠ some (some b)) →
        k₁ < k₂ →
        ∃ ra rb, relevance after a = some ra ∧ relevance after b = some rb ∧ rb < ra) ∧
      ((orderedProviders providers (QVariant.list names)).Nodup →
        ∀ (k₁ k₂ a b : Nat),
          (orderedProviders providers (QVariant.list names))[k₁]? = some (some a) →
          (orderedProviders providers (QVariant.list names))[k₂]? = some (some b) →
          k₁ < k₂ →
          ∃ ra rb, relevance after a = some ra ∧ relevance after b = some rb ∧ rb < ra) := by
  obtain ⟨l, hl, hv⟩ := orderedProviders_valid providers (QVariant.list names)
    (by simp [QVariant.isNull])
  obtain ⟨after, hrun, hall⟩ := ReloadSettings_ranked providers _ l hl hv
  rw [hl]
  have hidx : ∀ (k i : Nat), (l.map some)[k]? = some (some i) ↔ l[k]? = some i := by
    intro k i
    cases hk : l[k]? <;> simp [List.getElem?_map, hk]
  have hpair : ∀ (k₁ k₂ a b : Nat), l[k₁]? = some a → l[k₂]? = some b →
      (∀ j : Nat, k₁ < j → l[j]? ≠ some a) → (∀ j : Nat, k₂ < j → l[j]? ≠ some b) →
      k₁ < k₂ →
      ∃ ra rb, relevance after a = some ra ∧ relevance after b = some rb ∧ rb < ra := by
    intro k₁ k₂ a b h1 h2 hl1 hl2 hlt
    refine ⟨_, _, (hall k₁ a h1).2 hl1, (hall k₂ b h2).2 hl2, ?_⟩
    omega
  refine ⟨after, hrun, ?_, ?_, ?_⟩
  · intro k provider hk
    rw [hidx] at hk
    refine ⟨(hall k provider hk).1, ?_⟩
    intro hlast
    rw [(hall k provider hk).2 (fun j hj hc => hlast j hj ((hidx j provider).2 hc))]
    simp
  · intro k₁ k₂ a b h1 h2 hl1 hl2 hlt
    exact hpair k₁ k₂ a b ((hidx _ _).1 h1) ((hidx _ _).1 h2)
      (fun j hj hc => hl1 j hj ((hidx j a).2 hc))
      (fun j hj hc => hl2 j hj ((hidx j b).2 hc)) hlt
  · intro hnd k₁ k₂ a b h1 h2 hlt
    have hlast : ∀ (k i : Nat), (l.map some)[k]? = some (some i) →
        ∀ j : Nat, k < j → l[j]? ≠ some i := by
      intro k i hk j hkj hc
      have hklt : k < (l.map some).length := (List.getElem?_eq_some.1 hk).1
      have := List.getElem?_inj hklt hnd (hk.trans ((hidx j i).2 hc).symm)
      omega
    exact hpair k₁ k₂ a b ((hidx _ _).1 h1) ((hidx _ _).1 h2)
      (hlast k₁ a h1) (hlast k₂ b h2) hlt

/-- C5 does not hold as stated: a value that is present but is not a list is
not replaced by the default order. With a lyric provider registered for every
default name, such a value leaves provider 0 disabled, where a missing value
enables it. -/
theorem ReloadSettings_scalar_is_not_default :
    ∃ unreadable missing,
      ReloadSettings defaultProviders (QVariant.string "lyrics.wikia.com") = some unreadable ∧
      ReloadSettings defaultProviders QVariant.invalid = some missing ∧
      is_enabled unreadable 0 = some false ∧ is_enabled missing 0 = some true :=
  ⟨defaultProviders,
    (List.range 20).map (fun i => ⟨true, defaultOrder.getD i "", true, 20 - (i : Int)⟩),
    by decide, by decide, by decide, by decide⟩

/-- C5, amended. A missing value falls back to the default: when every default
name is registered, `ReloadSettings` completes with the result it gives for a
persisted list equal to the hardcoded default order. A value that is present
but is not a list is read as an empty list instead: `ReloadSettings` completes,
disables every lyric provider, and changes nothing else. -/
theorem ReloadSettings_missing_or_unreadable (providers : List SongInfoProvider) :
    ((∀ name ∈ defaultOrder,
        ∃ p ∈ providers, p.ultimateLyrics = true ∧ p.name = name) →
      (ReloadSettings providers QVariant.invalid).isSome = true ∧
      ReloadSettings providers QVariant.invalid =
        ReloadSettings providers (QVariant.list defaultOrder)) ∧
    (∀ s : String, ReloadSettings providers (QVariant.string s) =
      some (providers.map fun p => if p.ultimateLyrics then set_enabled p false else p)) := by
  constructor
  · intro h
    have hord : orderedProviders providers (QVariant.list defaultOrder) =
        orderedProviders providers QVariant.invalid := by
      rw [orderedProviders_list, orderedProviders_invalid]
      exact (map_eq_filterMap_map_some _ _
        (fun name hname => ProviderByName_isSome.2 (h name hname))).symm
    obtain ⟨l, hl, hv⟩ := orderedProviders_valid providers QVariant.invalid (fun _ => h)
    obtain ⟨after, hrun, _⟩ := ReloadSettings_spec providers _ l hl hv
    refine ⟨by simp [hrun], ?_⟩
    simp only [ReloadSettings, hord]
  · intro s
    obtain ⟨after, hrun, hlen, hall⟩ := ReloadSettings_spec providers (QVariant.string s) []
      (orderedProviders_string providers s) (by simp)
    rw [hrun]
    congr 1
    apply List.ext_getElem?
    intro i
    cases hp : providers[i]? with
    | none =>
      have hi : providers.length ≤ i := List.getElem?_eq_none_iff.1 hp
      rw [List.getElem?_eq_none_iff.2 (by omega)]
      simp [List.getElem?_map, hp]
    | some p =>
      obtain ⟨p', hp', _, _, _, hout, _⟩ := hall i p hp
      rw [hp', hout (by simp)]
      simp [List.getElem?_map, hp]

theorem ReloadSettings_missing_or_unreadable_witness :
    (ReloadSettings defaultProviders QVariant.invalid).isSome = true ∧
      ReloadSettings defaultProviders QVariant.invalid =
        ReloadSettings defaultProviders (QVariant.list defaultOrder) :=
  (ReloadSettings_missing_or_unreadable defaultProviders).1 defaultProviders_registered

/-- The enable-and-rank loop faults on every list that holds a `NULL`. -/
theorem enableAndRank_null (l : List (Option Nat)) (h : none ∈ l) :
    ∀ (r : Int) (ps : List SongInfoProvider), enableAndRank l r ps = none := by
  induction l with
  | nil => simp at h
  | cons x rest ih =>
    intro r ps
    cases x with
    | none => rfl
    | some i =>
      have hrest : none ∈ rest := by simpa using h
      unfold enableAndRank
      split
      · rfl
      · split
        · exact ih hrest _ _
        · rfl

/-- With no value for `search_order`, `ReloadSettings` faults as soon as one
default name has no registered lyric provider. -/
theorem ReloadSettings_default_fault (providers : List SongInfoProvider) (name : String)
    (hname : name ∈ defaultOrder) (h : ProviderByName providers name = none) :
    ReloadSettings providers QVariant.invalid = none := by
  have hmem : none ∈ orderedProviders providers QVariant.invalid := by
    rw [orderedProviders_invalid]
    exact List.mem_map.2 ⟨name, hname, h⟩
  simp only [ReloadSettings, enableAndRank_null _ hmem]

/-- C6 fails on the code. With no value for `search_order` and no provider
registered, the default branch appends the `NULL` of every `ProviderByName`
call to `ordered_providers`, and the enable-and-rank loop dereferences the
first of them: `ReloadSettings` faults. The same holds when all default names
but one are registered. -/
theorem ReloadSettings_default_null_dereference :
    orderedProviders [] QVariant.invalid = List.replicate 20 none ∧
      ReloadSettings [] QVariant.invalid = none ∧
      (orderedProviders defaultProviders.tail QVariant.invalid).head? = some none ∧
      ReloadSettings defaultProviders.tail QVariant.invalid = none :=
  ⟨by decide, by decide, by decide, by decide⟩

/-- C7. An enabled provider sorts before a disabled one, whatever their
relevance values: `CompareLyricProviders` is true one way and false the
other. -/
theorem CompareLyricProviders_enabled_before_disabled (a b : SongInfoProvider)
    (ha : a.enabled = true) (hb : b.enabled = false) :
    CompareLyricProviders a b = true ∧ CompareLyricProviders b a = false := by
  simp [CompareLyricProviders, ha, hb]

theorem CompareLyricProviders_enabled_before_disabled_witness :
    CompareLyricProviders ⟨true, "a", true, -5⟩ ⟨true, "b", false, 100⟩ = true ∧
      CompareLyricProviders ⟨true, "b", false, 100⟩ ⟨true, "a", true, -5⟩ = false :=
  CompareLyricProviders_enabled_before_disabled ⟨true, "a", true, -5⟩ ⟨true, "b", false, 100⟩
    rfl rfl

/-! ## The comparator and the sorted list -/

theorem CompareLyricProviders_strictWeak : StrictWeakOrdering CompareLyricProviders := by
  refine ⟨?_, ?_, ?_, ?_⟩
  · rintro ⟨_, _, ea, ra⟩
    cases ea <;> simp [CompareLyricProviders]
  · rintro ⟨_, _, ea, ra⟩ ⟨_, _, eb, rb⟩
    cases ea <;> cases eb <;> simp [CompareLyricProviders] <;> omega
  · rintro ⟨_, _, ea, ra⟩ ⟨_, _, eb, rb⟩ ⟨_, _, ec, rc⟩
    cases ea <;> cases eb <;> cases ec <;> simp [CompareLyricProviders] <;> omega
  · rintro ⟨_, _, ea, ra⟩ ⟨_, _, eb, rb⟩ ⟨_, _, ec, rc⟩
    cases ea <;> cases eb <;> cases ec <;> simp [CompareLyricProviders] <;> omega

/-- C9. `CompareLyricProviders` is a strict weak ordering: irreflexive,
asymmetric, transitive, and with transitive incomparability. -/
theorem CompareLyricProviders_strict_weak_ordering :
    (∀ a, CompareLyricProviders a a = false) ∧
    (∀ a b, CompareLyricProviders a b = true → CompareLyricProviders b a = false) ∧
    (∀ a b c, CompareLyricProviders a b = true → CompareLyricProviders b c = true →
      CompareLyricProviders a c = true) ∧
    (∀ a b c, CompareLyricProviders a b = false → CompareLyricProviders b a = false →
      CompareLyricProviders b c = false → CompareLyricProviders c b = false →
      CompareLyricProviders a c = false ∧ CompareLyricProviders c a = false) :=
  CompareLyricProviders_strictWeak

theorem mem_orderedInsert (lessThan : SongInfoProvider → SongInfoProvider → Bool)
    (x : SongInfoProvider) (l : List SongInfoProvider) :
    (orderedInsert lessThan x l).Perm (x :: l) := by
  induction l with
  | nil => exact List.Perm.refl _
  | cons y rest ih =>
    unfold orderedInsert
    split
    · exact List.Perm.refl _
    · exact (List.Perm.cons y ih).trans (List.Perm.swap x y rest)

theorem insertionSort_perm (lessThan : SongInfoProvider → SongInfoProvider → Bool)
    (l : List SongInfoProvider) : (insertionSort lessThan l).Perm l := by
  induction l with
  | nil => exact List.Perm.refl _
  | cons x rest ih =>
    exact (mem_orderedInsert lessThan x _).trans (List.Perm.cons x ih)

theorem orderedInsert_ascending (lessThan : SongInfoProvider → SongInfoProvider → Bool)
    (hlt : StrictWeakOrdering lessThan) (x : SongInfoProvider) (l : List SongInfoProvider)
    (hl : l.Pairwise fun a b => lessThan b a = false) :
    (orderedInsert lessThan x l).Pairwise fun a b => lessThan b a = false := by
  obtain ⟨_, hasym, htrans, _⟩ := hlt
  induction l with
  | nil => simp [orderedInsert]
  | cons y rest ih =>
    obtain ⟨hy, hrest⟩ := List.pairwise_cons.1 hl
    unfold orderedInsert
    split
    · rename_i hxy
      refine List.pairwise_cons.2 ⟨?_, hl⟩
      intro b hb
      rcases List.mem_cons.1 hb with rfl | hb
      · exact hasym _ _ hxy
      · cases hbx : lessThan b x with
        | false => rfl
        | true =>
          have := htrans b x y hbx hxy
          rw [hy b hb] at this
          exact absurd this Bool.false_ne_true
    · rename_i hxy
      refine List.pairwise_cons.2 ⟨?_, ih hrest⟩
      intro b hb
      rcases List.mem_cons.1 ((mem_orderedInsert lessThan x rest).mem_iff.1 hb) with rfl | hb
      · simpa using hxy
      · exact hy b hb

theorem insertionSort_sortsAscending : SortsAscending insertionSort := by
  intro lessThan items hlt
  refine ⟨insertionSort_perm lessThan items, ?_⟩
  induction items with
  | nil => exact List.Pairwise.nil
  | cons x rest ih => exact orderedInsert_ascending lessThan hlt x _ ih

/-- C8. For a `qSort` that meets its contract, `lyric_providers` returns a
rearrangement of exactly the registered lyric providers, with every enabled
provider before every disabled one and, among providers with the same enabled
state, relevance never increasing along the list. -/
theorem lyric_providers_sorted
    (qSort : (SongInfoProvider → SongInfoProvider → Bool) →
      List SongInfoProvider → List SongInfoProvider)
    (hq : SortsAscending qSort) (providers : List SongInfoProvider) :
    (lyric_providers qSort providers).Perm
        (providers.filter fun provider => provider.ultimateLyrics) ∧
      (∀ p ∈ lyric_providers qSort providers, p ∈ providers ∧ p.ultimateLyrics = true) ∧
      (lyric_providers qSort providers).Pairwise fun a b =>
        (b.enabled = true → a.enabled = true) ∧
        (a.enabled = b.enabled → b.relevance ≤ a.relevance) := by
  obtain ⟨hperm, hsorted⟩ := hq CompareLyricProviders
    (providers.filter fun provider => provider.ultimateLyrics) CompareLyricProviders_strictWeak
  refine ⟨hperm, ?_, ?_⟩
  · intro p hp
    exact List.mem_filter.1 (hperm.mem_iff.1 hp)
  · refine List.Pairwise.imp ?_ hsorted
    rintro ⟨_, _, ea, ra⟩ ⟨_, _, eb, rb⟩
    cases ea <;> cases eb <;> simp [CompareLyricProviders]

theorem lyric_providers_sorted_witness :
    (lyric_providers insertionSort
        [⟨true, "a", false, 9⟩, ⟨false, "last.fm", true, 0⟩, ⟨true, "b", true, 1⟩,
          ⟨true, "c", true, 2⟩]).Perm
        (List.filter (fun provider => provider.ultimateLyrics)
          [⟨true, "a", false, 9⟩, ⟨false, "last.fm", true, 0⟩, ⟨true, "b", true, 1⟩,
            ⟨true, "c", true, 2⟩]) ∧
      (∀ p ∈ lyric_providers insertionSort
          [⟨true, "a", false, 9⟩, ⟨false, "last.fm", true, 0⟩, ⟨true, "b", true, 1⟩,
            ⟨true, "c", true, 2⟩],
        p ∈ [(⟨true, "a", false, 9⟩ : SongInfoProvider), ⟨false, "last.fm", true, 0⟩,
          ⟨true, "b", true, 1⟩, ⟨true, "c", true, 2⟩] ∧ p.ultimateLyrics = true) ∧
      (lyric_providers insertionSort
        [⟨true, "a", false, 9⟩, ⟨false, "last.fm", true, 0⟩, ⟨true, "b", true, 1⟩,
          ⟨true, "c", true, 2⟩]).Pairwise fun a b =>
        (b.enabled = true → a.enabled = true) ∧
        (a.enabled = b.enabled → b.relevance ≤ a.relevance) :=
  lyric_providers_sorted insertionSort insertionSort_sortsAscending _

theorem lyric_providers_example :
    lyric_providers insertionSort
        [⟨true, "a", false, 9⟩, ⟨false, "last.fm", true, 0⟩, ⟨true, "b", true, 1⟩,
          ⟨true, "c", true, 2⟩] =
      [⟨true, "c", true, 2⟩, ⟨true, "b", true, 1⟩, ⟨true, "a", false, 9⟩] := by
  decide

end SongInfoView
